import Mathlib

/-!
Verification of the in-process performance and access-control layer of the
repository: the TTL cache, the two rate limiters, the access-token lifecycle
and the chunked batch delivery engine.

Timestamps and float-valued quantities of the source are modelled by an
arbitrary linearly ordered commutative ring `R` (the source uses IEEE floats
through `time.time()` and `datetime`; all claims under examination only use
ordered-ring operations, so the model covers `ℝ`, `ℚ` and `ℤ` uniformly).
Concrete evaluations instantiate `R := ℤ`.

Python dicts are modelled as association lists with the usual first-binding
lookup; the source only ever creates one binding per key.
-/

section AList

variable {K V : Type} [DecidableEq K]

/-- Lookup in an association list, mirroring `d[key]` / `key in d` on a
Python dict. -/
def alist_get : List (K × V) → K → Option V
  | [], _ => none
  | (k, v) :: rest, key => if k = key then some v else alist_get rest key

/-- Update or insert a binding, mirroring `d[key] = value` on a Python dict
(overwrite in place, append when fresh). -/
def alist_set : List (K × V) → K → V → List (K × V)
  | [], key, val => [(key, val)]
  | (k, v) :: rest, key, val =>
    if k = key then (key, val) :: rest else (k, v) :: alist_set rest key val

/-- Remove a binding, mirroring `d.pop(key, None)` on a Python dict. -/
def alist_pop (l : List (K × V)) (key : K) : List (K × V) :=
  l.filter (fun kv => decide (kv.1 ≠ key))

/-- Remove a set of bindings, mirroring a loop of `d.pop(key, None)` calls
over `keys`. -/
def alist_pop_many (l : List (K × V)) (keys : List K) : List (K × V) :=
  l.filter (fun kv => decide (kv.1 ∉ keys))

theorem alist_get_set_self (l : List (K × V)) (key : K) (val : V) :
    alist_get (alist_set l key val) key = some val := by
  induction l with
  | nil => simp [alist_set, alist_get]
  | cons kv rest ih =>
    by_cases h : kv.1 = key
    · simp [alist_set, alist_get, h]
    · simpa [alist_set, alist_get, h] using ih

end AList

section CacheDefs

variable {R : Type} [LinearOrderedCommRing R]
variable {K V : Type} [DecidableEq K]

/-- One entry of `MemoryCache._cache`: the dict `{"value": v, "expires_at": e}`. -/
structure CacheEntry (V : Type) (R : Type) where
  value : V
  expires_at : R
deriving DecidableEq

/-- State of `MemoryCache` (performance_optimizer.py): `default_ttl`,
`max_size`, the `_cache` dict and the `_access_times` dict. -/
structure MemoryCache (K V : Type) (R : Type) where
  default_ttl : R
  max_size : ℕ
  cache : List (K × CacheEntry V R)
  access_times : List (K × R)
deriving DecidableEq

/-- `MemoryCache.get(key)` at time `now`: absent keys give `None`; an entry
with `now > expires_at` is evicted and gives `None`; otherwise the access
time is refreshed and the value returned. Returns the result together with
the mutated cache. -/
def MemoryCache.get (c : MemoryCache K V R) (key : K) (now : R) :
    Option V × MemoryCache K V R :=
  match alist_get c.cache key with
  | none => (none, c)
  | some data =>
    if data.expires_at < now then
      (none, { c with cache := alist_pop c.cache key,
                      access_times := alist_pop c.access_times key })
    else
      (some data.value, { c with access_times := alist_set c.access_times key now })

/-- `MemoryCache.set(key, value, ttl)` at time `now`: `ttl = None` falls back
to the default, the entry is overwritten outright. -/
def MemoryCache.set (c : MemoryCache K V R) (key : K) (value : V)
    (ttl : Option R) (now : R) : MemoryCache K V R :=
  let t := ttl.getD c.default_ttl
  { c with cache := alist_set c.cache key ⟨value, now + t⟩,
           access_times := alist_set c.access_times key now }

/-- `MemoryCache.delete(key)`. -/
def MemoryCache.delete (c : MemoryCache K V R) (key : K) :
    Bool × MemoryCache K V R :=
  match alist_get c.cache key with
  | some _ => (true, { c with cache := alist_pop c.cache key,
                              access_times := alist_pop c.access_times key })
  | none => (false, c)

end CacheDefs

section C1Section

variable {R : Type} [LinearOrderedCommRing R]
variable {K V : Type} [DecidableEq K]

theorem memcache_get_after_set (c : MemoryCache K V R) (key : K) (value : V)
    (ttl t0 t : R) :
    ((c.set key value (some ttl) t0).get key (t0 + t)).1 =
      (if t ≤ ttl then some value else none) := by
  unfold MemoryCache.set MemoryCache.get
  simp only [Option.getD_some, alist_get_set_self]
  by_cases h : t ≤ ttl
  · rw [if_pos h, if_neg (by simpa using h)]
  · rw [if_neg h, if_pos (by simpa using lt_of_not_le h)]

/-- A concrete cache used in evaluations: the module-level
`MemoryCache(default_ttl=300, max_size=10000)` instance over integer time. -/
def sampleCache : MemoryCache ℕ ℕ ℤ := ⟨300, 10000, [], []⟩

/-- Claim C1, counterexample. The claim asserts that after
`set(key, value, ttl)` at time `t0`, `get(key)` at `t0 + t` returns absent
for every `t ≥ ttl`. At the boundary `t = ttl` the code keeps the entry:
expiry requires `now > expires_at` strictly. Concretely, `set(1, 42, ttl=10)`
at time `0` followed by `get(1)` at time `10` (so `t = ttl = 10 ≥ ttl`)
returns the value `42`, not absent. -/
theorem C1_counterexample :
    ((sampleCache.set 1 42 (some 10) 0).get 1 (0 + 10)).1 = some 42 := by
  decide

/-- Claim C1, amended. For every key, value and ttl, after
`MemoryCache.set(key, value, ttl)` at time `t0` over any prior cache state,
`get(key)` evaluated at `t0 + t` returns the value for every `t ≤ ttl` and
returns absent (`None`) for every `t > ttl` (strict expiry: the entry is
dropped only when `now > expiresAt`), with no reclamation cycle running in
between. -/
theorem C1_thm (c : MemoryCache K V R) (key : K) (value : V) (ttl t0 t : R) :
    (t ≤ ttl → ((c.set key value (some ttl) t0).get key (t0 + t)).1 = some value) ∧
    (ttl < t → ((c.set key value (some ttl) t0).get key (t0 + t)).1 = none) := by
  constructor
  · intro h
    rw [memcache_get_after_set, if_pos h]
  · intro h
    rw [memcache_get_after_set, if_neg (not_le.mpr h)]

/-- Claim C1, witness: the amended theorem applied at `ttl = 10`, `t = 3`
(fresh read) and `t = 11` (expired read) over the concrete sample cache. -/
theorem C1_witness :
    ((sampleCache.set 1 42 (some 10) 0).get 1 (0 + 3)).1 = some 42 ∧
    ((sampleCache.set 1 42 (some 10) 0).get 1 (0 + 11)).1 = none :=
  ⟨(C1_thm sampleCache 1 42 10 0 3).1 (by decide),
   (C1_thm sampleCache 1 42 10 0 11).2 (by decide)⟩

end C1Section

section LimiterDefs

variable {R : Type} [LinearOrderedCommRing R]

/-- State of `UserRateLimiter` (performance_optimizer.py): `max_requests`,
`window_seconds` and the `user_requests` defaultdict mapping each identity to
its deque of request timestamps, oldest first. -/
structure UserRateLimiter (R : Type) where
  max_requests : ℕ
  window_seconds : R
  user_requests : List (ℤ × List R)
deriving DecidableEq

/-- The deque of one identity: `self.user_requests[user_id]`, read through
the defaultdict (a missing identity reads as the empty deque). -/
def UserRateLimiter.requests (s : UserRateLimiter R) (user_id : ℤ) : List R :=
  (alist_get s.user_requests user_id).getD []

/-- `UserRateLimiter.is_allowed(user_id)` at time `now`: pop timestamps
strictly older than `now - window_seconds` from the front of the deque, admit
iff the remaining count is strictly below `max_requests`, and append `now`
when admitted. -/
def UserRateLimiter.is_allowed (s : UserRateLimiter R) (user_id : ℤ) (now : R) :
    Bool × UserRateLimiter R :=
  let pruned := (s.requests user_id).dropWhile (fun t => decide (t < now - s.window_seconds))
  if pruned.length < s.max_requests then
    (true, { s with user_requests := alist_set s.user_requests user_id (pruned ++ [now]) })
  else
    (false, { s with user_requests := alist_set s.user_requests user_id pruned })

/-- `UserRateLimiter.get_reset_time(user_id)`: the oldest recorded timestamp
plus the window, and the sentinel `0` when the identity has no recorded
requests. -/
def UserRateLimiter.get_reset_time (s : UserRateLimiter R) (user_id : ℤ) : R :=
  match s.requests user_id with
  | [] => 0
  | t :: _ => t + s.window_seconds

/-- A sequence of `is_allowed` calls for one identity at the given times,
collecting the boolean results. -/
def UserRateLimiter.run (s : UserRateLimiter R) (user_id : ℤ) :
    List R → UserRateLimiter R × List Bool
  | [] => (s, [])
  | t :: ts =>
    let r := s.is_allowed user_id t
    let rest := r.2.run user_id ts
    (rest.1, r.1 :: rest.2)

/-- List-level restatement of the per-identity dynamics of `is_allowed`:
the deque and the decisions of a sequence of calls, without the identity
map around them. -/
def lrun (W : R) (maxr : ℕ) : List R → List R → List R × List Bool
  | reqs, [] => (reqs, [])
  | reqs, t :: ts =>
    let pruned := reqs.dropWhile (fun u => decide (u < t - W))
    if pruned.length < maxr then
      let rest := lrun W maxr (pruned ++ [t]) ts
      (rest.1, true :: rest.2)
    else
      let rest := lrun W maxr pruned ts
      (rest.1, false :: rest.2)

/-- The call times that were admitted: the call times zipped with their
results, keeping the `true` ones. -/
def admittedTimes : List R → List Bool → List R
  | t :: ts, b :: bs =>
    if b then t :: admittedTimes ts bs else admittedTimes ts bs
  | _, _ => []

/-- Number of elements of `l` lying in the closed trailing window
`[a, a + W]`. -/
def windowCount (W a : R) (l : List R) : ℕ :=
  l.countP (fun u => decide (a ≤ u ∧ u ≤ a + W))

theorem UserRateLimiter.requests_set (s : UserRateLimiter R) (uid : ℤ) (l : List R) :
    UserRateLimiter.requests { s with user_requests := alist_set s.user_requests uid l } uid = l := by
  simp [UserRateLimiter.requests, alist_get_set_self]

theorem UserRateLimiter.run_cons (s : UserRateLimiter R) (uid : ℤ) (t : R) (ts : List R) :
    s.run uid (t :: ts) =
      (((s.is_allowed uid t).2.run uid ts).1,
        (s.is_allowed uid t).1 :: ((s.is_allowed uid t).2.run uid ts).2) := rfl

/-- The decisions of a call sequence for one identity only depend on that
identity through the list-level dynamics `lrun`. -/
theorem UserRateLimiter.run_eq_lrun (uid : ℤ) :
    ∀ (ts : List R) (s : UserRateLimiter R),
    (s.run uid ts).2 = (lrun s.window_seconds s.max_requests (s.requests uid) ts).2 := by
  intro ts
  induction ts with
  | nil => intro s; rfl
  | cons t ts ih =>
    intro s
    rw [UserRateLimiter.run_cons]
    by_cases hadm : ((s.requests uid).dropWhile
        (fun u => decide (u < t - s.window_seconds))).length < s.max_requests
    · simp only [UserRateLimiter.is_allowed, hadm, if_true, if_pos hadm]
      rw [ih]
      simp [UserRateLimiter.requests_set, lrun, hadm]
    · simp only [UserRateLimiter.is_allowed, if_neg hadm]
      rw [ih]
      simp [UserRateLimiter.requests_set, lrun, hadm]

theorem windowCount_append (W a : R) (l1 l2 : List R) :
    windowCount W a (l1 ++ l2) = windowCount W a l1 + windowCount W a l2 := by
  simp [windowCount, List.countP_append]

theorem windowCount_cons (W a t : R) (l : List R) :
    windowCount W a (t :: l) =
      windowCount W a l + (if a ≤ t ∧ t ≤ a + W then 1 else 0) := by
  simp only [windowCount, List.countP_cons, decide_eq_true_eq]

theorem windowCount_nil (W a : R) : windowCount W a ([] : List R) = 0 := rfl

theorem windowCount_le_length (W a : R) (l : List R) :
    windowCount W a l ≤ l.length :=
  List.countP_le_length _

theorem windowCount_eq_zero_of_lt (W a : R) (l : List R)
    (h : ∀ u ∈ l, u < a) : windowCount W a l = 0 := by
  rw [windowCount, List.countP_eq_zero]
  intro u hu
  simp only [decide_eq_true_eq, not_and, not_le]
  intro hc
  exact absurd hc (not_le.mpr (h u hu))

/-- Window-invariant induction for the sliding-window dynamics: starting
from a deque `reqs` whose already-pruned history `dropped` is strictly older
than `t0 - W`, if `dropped ++ reqs` counts at most `maxr` timestamps in the
window `[a, a + W]`, then processing any non-decreasing sequence of further
calls keeps the count of those timestamps plus all newly admitted call times
at or below `maxr`. -/
theorem lrun_window_key (W : R) (maxr : ℕ) :
    ∀ (ts reqs dropped : List R) (t0 a : R),
    List.Pairwise (· ≤ ·) (t0 :: ts) →
    (∀ u ∈ dropped, u < t0 - W) →
    windowCount W a (dropped ++ reqs) ≤ maxr →
    windowCount W a (dropped ++ reqs ++ admittedTimes ts (lrun W maxr reqs ts).2) ≤ maxr := by
  intro ts
  induction ts with
  | nil =>
    intro reqs dropped t0 a hpair hdrop hbound
    simpa [lrun, admittedTimes] using hbound
  | cons t ts ih =>
    intro reqs dropped t0 a hpair hdrop hbound
    have ht0t : t0 ≤ t := List.rel_of_pairwise_cons hpair (by simp)
    have hpair2 : List.Pairwise (· ≤ ·) (t :: ts) := hpair.of_cons
    have hsplit : reqs.takeWhile (fun u => decide (u < t - W)) ++
        reqs.dropWhile (fun u => decide (u < t - W)) = reqs :=
      List.takeWhile_append_dropWhile _ _
    have hdrop2 : ∀ u ∈ dropped ++ reqs.takeWhile (fun u => decide (u < t - W)),
        u < t - W := by
      intro u hu
      rcases List.mem_append.mp hu with h | h
      · exact lt_of_lt_of_le (hdrop u h) (by linarith)
      · exact of_decide_eq_true
          (List.mem_takeWhile_imp (p := fun u => decide (u < t - W)) h)
    have hreqs_split : windowCount W a reqs =
        windowCount W a (reqs.takeWhile (fun u => decide (u < t - W))) +
        windowCount W a (reqs.dropWhile (fun u => decide (u < t - W))) := by
      have h := windowCount_append W a
        (reqs.takeWhile (fun u => decide (u < t - W)))
        (reqs.dropWhile (fun u => decide (u < t - W)))
      rw [hsplit] at h
      exact h
    have hbound_split : windowCount W a dropped + windowCount W a reqs ≤ maxr := by
      rw [windowCount_append] at hbound
      exact hbound
    by_cases hadm : (reqs.dropWhile (fun u => decide (u < t - W))).length < maxr
    · -- the call at time t is admitted
      have hstep : (lrun W maxr reqs (t :: ts)).2 =
          true :: (lrun W maxr (reqs.dropWhile (fun u => decide (u < t - W)) ++ [t]) ts).2 := by
        simp [lrun, hadm]
      have hbound2 : windowCount W a
          ((dropped ++ reqs.takeWhile (fun u => decide (u < t - W))) ++
            (reqs.dropWhile (fun u => decide (u < t - W)) ++ [t])) ≤ maxr := by
        rw [windowCount_append, windowCount_append, windowCount_append,
          windowCount_cons, windowCount_nil]
        have hlen := windowCount_le_length W a
          (reqs.dropWhile (fun u => decide (u < t - W)))
        by_cases hpt : a ≤ t ∧ t ≤ a + W
        · have hz : windowCount W a
              (dropped ++ reqs.takeWhile (fun u => decide (u < t - W))) = 0 := by
            apply windowCount_eq_zero_of_lt
            intro u hu
            have h1 := hdrop2 u hu
            have h2 := hpt.2
            linarith
          rw [windowCount_append] at hz
          rw [if_pos hpt]
          omega
        · rw [if_neg hpt]
          omega
      have hrec := ih (reqs.dropWhile (fun u => decide (u < t - W)) ++ [t])
        (dropped ++ reqs.takeWhile (fun u => decide (u < t - W))) t a
        hpair2 hdrop2 hbound2
      rw [hstep]
      simp only [admittedTimes, if_true]
      rw [windowCount_append, windowCount_append, windowCount_cons]
      rw [windowCount_append, windowCount_append, windowCount_append,
        windowCount_append, windowCount_cons, windowCount_nil] at hrec
      omega
    · -- the call at time t is denied
      have hstep : (lrun W maxr reqs (t :: ts)).2 =
          false :: (lrun W maxr (reqs.dropWhile (fun u => decide (u < t - W))) ts).2 := by
        simp [lrun, hadm]
      have hbound2 : windowCount W a
          ((dropped ++ reqs.takeWhile (fun u => decide (u < t - W))) ++
            reqs.dropWhile (fun u => decide (u < t - W))) ≤ maxr := by
        rw [windowCount_append, windowCount_append]
        omega
      have hrec := ih (reqs.dropWhile (fun u => decide (u < t - W)))
        (dropped ++ reqs.takeWhile (fun u => decide (u < t - W))) t a
        hpair2 hdrop2 hbound2
      rw [hstep]
      simp only [admittedTimes, if_false, Bool.false_eq_true]
      rw [windowCount_append, windowCount_append]
      rw [windowCount_append, windowCount_append, windowCount_append] at hrec
      omega

end LimiterDefs

section C2Section

variable {R : Type} [LinearOrderedCommRing R]

/-- Claim C2. For every identity, over any sequence of `is_allowed` calls at
non-decreasing times, the number of calls that returned `true` whose
timestamps lie in any trailing window `[a, a + windowSeconds]` never exceeds
`maxRequests`; moreover a single `is_allowed` call admits iff, after pruning
timestamps strictly older than `now - windowSeconds`, the remaining count is
strictly below `maxRequests`, recording the attempt (appending `now`) exactly
when admitted. -/
theorem C2_thm (maxr : ℕ) (W : R) (uid : ℤ) (ts : List R)
    (hmono : List.Pairwise (· ≤ ·) ts) :
    (∀ a : R, windowCount W a
      (admittedTimes ts ((⟨maxr, W, []⟩ : UserRateLimiter R).run uid ts).2) ≤ maxr) ∧
    (∀ (s : UserRateLimiter R) (id0 : ℤ) (now : R),
      ((s.is_allowed id0 now).1 = true ↔
        ((s.requests id0).dropWhile (fun u => decide (u < now - s.window_seconds))).length < s.max_requests) ∧
      ((s.is_allowed id0 now).1 = true →
        (s.is_allowed id0 now).2.requests id0 =
          ((s.requests id0).dropWhile (fun u => decide (u < now - s.window_seconds))) ++ [now]) ∧
      ((s.is_allowed id0 now).1 = false →
        (s.is_allowed id0 now).2.requests id0 =
          (s.requests id0).dropWhile (fun u => decide (u < now - s.window_seconds)))) := by
  constructor
  · intro a
    rw [UserRateLimiter.run_eq_lrun]
    have hreq : (⟨maxr, W, []⟩ : UserRateLimiter R).requests uid = [] := rfl
    rw [hreq]
    cases ts with
    | nil => simp [lrun, admittedTimes, windowCount, List.countP_nil]
    | cons t0 rest =>
      have hpair : List.Pairwise (· ≤ ·) (t0 :: t0 :: rest) := by
        rw [List.pairwise_cons]
        refine ⟨?_, hmono⟩
        intro b hb
        rcases List.mem_cons.mp hb with h | h
        · exact le_of_eq h.symm
        · exact List.rel_of_pairwise_cons hmono h
      have hkey := lrun_window_key W maxr (t0 :: rest) [] [] t0 a hpair
        (by intro u hu; cases hu)
        (by simp [windowCount, List.countP_nil])
      simpa using hkey
  · intro s id0 now
    by_cases h : ((s.requests id0).dropWhile
        (fun u => decide (u < now - s.window_seconds))).length < s.max_requests
    · refine ⟨by simp [UserRateLimiter.is_allowed, h], ?_, ?_⟩
      · intro _
        simp [UserRateLimiter.is_allowed, h, UserRateLimiter.requests_set]
      · intro hfalse
        simp [UserRateLimiter.is_allowed, h] at hfalse
    · refine ⟨by simp [UserRateLimiter.is_allowed, h], ?_, ?_⟩
      · intro htrue
        simp [UserRateLimiter.is_allowed, h] at htrue
      · intro _
        simp [UserRateLimiter.is_allowed, h, UserRateLimiter.requests_set]

/-- Claim C2, witness: the theorem applied to the concrete limiter
`UserRateLimiter(max_requests=3, window_seconds=60)` over integer time, with
four calls at times `[100, 100, 100, 101]` and the trailing window anchored
at `a = 100`. -/
theorem C2_witness :
    List.Pairwise (· ≤ ·) [(100 : ℤ), 100, 100, 101] ∧
    windowCount (60 : ℤ) 100
      (admittedTimes [(100 : ℤ), 100, 100, 101]
        ((⟨3, 60, []⟩ : UserRateLimiter ℤ).run 7 [100, 100, 100, 101]).2) ≤ 3 :=
  ⟨by decide, (C2_thm 3 60 7 [100, 100, 100, 101] (by decide)).1 100⟩

end C2Section

section C8Section

variable {R : Type} [LinearOrderedCommRing R]

theorem UserRateLimiter.is_allowed_window_seconds (s : UserRateLimiter R)
    (uid : ℤ) (t : R) :
    (s.is_allowed uid t).2.window_seconds = s.window_seconds := by
  by_cases hadm : ((s.requests uid).dropWhile
      (fun u => decide (u < t - s.window_seconds))).length < s.max_requests
  · rw [UserRateLimiter.is_allowed]
    simp [hadm]
  · rw [UserRateLimiter.is_allowed]
    simp [hadm]

theorem UserRateLimiter.run_window_seconds (uid : ℤ) :
    ∀ (ts : List R) (s : UserRateLimiter R),
    (s.run uid ts).1.window_seconds = s.window_seconds := by
  intro ts
  induction ts with
  | nil => intro s; rfl
  | cons t ts ih =>
    intro s
    rw [UserRateLimiter.run_cons]
    have h := ih (s.is_allowed uid t).2
    simpa [UserRateLimiter.is_allowed_window_seconds] using h

/-- The final deque of a call sequence for one identity agrees with the
list-level dynamics `lrun`. -/
theorem UserRateLimiter.run_requests (uid : ℤ) :
    ∀ (ts : List R) (s : UserRateLimiter R),
    ((s.run uid ts).1).requests uid =
      (lrun s.window_seconds s.max_requests (s.requests uid) ts).1 := by
  intro ts
  induction ts with
  | nil => intro s; rfl
  | cons t ts ih =>
    intro s
    rw [UserRateLimiter.run_cons]
    by_cases hadm : ((s.requests uid).dropWhile
        (fun u => decide (u < t - s.window_seconds))).length < s.max_requests
    · simp only [UserRateLimiter.is_allowed, if_pos hadm]
      rw [ih]
      simp [UserRateLimiter.requests_set, lrun, hadm]
    · simp only [UserRateLimiter.is_allowed, if_neg hadm]
      rw [ih]
      simp [UserRateLimiter.requests_set, lrun, hadm]

/-- Claim C8. `get_reset_time(identity)` returns the oldest recorded request
timestamp plus `windowSeconds` when the identity has recorded requests, and
the sentinel `0` when it has none. Concretely, with `max_requests = 3`,
`window_seconds = 60` and four `is_allowed` calls within one second, the
results are `[true, true, true, false]` and `get_reset_time` then lies
between 59 and 60 seconds in the future. -/
theorem C8_thm :
    (∀ (s : UserRateLimiter R) (uid : ℤ),
      (s.requests uid = [] → s.get_reset_time uid = 0) ∧
      (∀ (t : R) (rest : List R), s.requests uid = t :: rest →
        s.get_reset_time uid = t + s.window_seconds)) ∧
    (∀ (uid : ℤ) (t1 t2 t3 t4 : R), t1 ≤ t2 → t2 ≤ t3 → t3 ≤ t4 → t4 ≤ t1 + 1 →
      ((⟨3, 60, []⟩ : UserRateLimiter R).run uid [t1, t2, t3, t4]).2 =
          [true, true, true, false] ∧
      59 ≤ (((⟨3, 60, []⟩ : UserRateLimiter R).run uid [t1, t2, t3, t4]).1.get_reset_time uid) - t4 ∧
      (((⟨3, 60, []⟩ : UserRateLimiter R).run uid [t1, t2, t3, t4]).1.get_reset_time uid) - t4 ≤ 60) := by
  constructor
  · intro s uid
    constructor
    · intro h
      simp [UserRateLimiter.get_reset_time, h]
    · intro t rest h
      simp [UserRateLimiter.get_reset_time, h]
  · intro uid t1 t2 t3 t4 h12 h23 h34 h41
    have d2 : decide (t1 < t2 - (60 : R)) = false := decide_eq_false (by linarith)
    have d3 : decide (t1 < t3 - (60 : R)) = false := decide_eq_false (by linarith)
    have d4 : decide (t1 < t4 - (60 : R)) = false := decide_eq_false (by linarith)
    have e1 : lrun (60 : R) 3 [] [t1, t2, t3, t4] =
        ([t1, t2, t3], [true, true, true, false]) := by
      simp [lrun, d2, d3, d4]
    have hq : (⟨3, 60, []⟩ : UserRateLimiter R).requests uid = [] := rfl
    have hrun2 : ((⟨3, 60, []⟩ : UserRateLimiter R).run uid [t1, t2, t3, t4]).2 =
        [true, true, true, false] := by
      rw [UserRateLimiter.run_eq_lrun, hq,
        show (⟨3, 60, []⟩ : UserRateLimiter R).window_seconds = 60 from rfl,
        show (⟨3, 60, []⟩ : UserRateLimiter R).max_requests = 3 from rfl, e1]
    have hreq : (((⟨3, 60, []⟩ : UserRateLimiter R).run uid [t1, t2, t3, t4]).1).requests uid =
        [t1, t2, t3] := by
      rw [UserRateLimiter.run_requests, hq,
        show (⟨3, 60, []⟩ : UserRateLimiter R).window_seconds = 60 from rfl,
        show (⟨3, 60, []⟩ : UserRateLimiter R).max_requests = 3 from rfl, e1]
    have hw : (((⟨3, 60, []⟩ : UserRateLimiter R).run uid [t1, t2, t3, t4]).1).window_seconds =
        (60 : R) := by
      rw [UserRateLimiter.run_window_seconds]
    have hrt : (((⟨3, 60, []⟩ : UserRateLimiter R).run uid [t1, t2, t3, t4]).1).get_reset_time uid =
        t1 + 60 := by
      simp [UserRateLimiter.get_reset_time, hreq, hw]
    refine ⟨hrun2, ?_, ?_⟩
    · rw [hrt]; linarith
    · rw [hrt]; linarith

/-- Claim C8, witness: the concrete scenario at integer times
`100, 100, 100, 101` for identity 5, together with the sentinel case on the
fresh limiter. -/
theorem C8_witness :
    (((⟨3, 60, []⟩ : UserRateLimiter ℤ).run 5 [100, 100, 100, 101]).2 =
        [true, true, true, false] ∧
      59 ≤ (((⟨3, 60, []⟩ : UserRateLimiter ℤ).run 5 [100, 100, 100, 101]).1.get_reset_time 5) - 101 ∧
      (((⟨3, 60, []⟩ : UserRateLimiter ℤ).run 5 [100, 100, 100, 101]).1.get_reset_time 5) - 101 ≤ 60) ∧
    ((⟨3, 60, []⟩ : UserRateLimiter ℤ).get_reset_time 5 = 0) :=
  ⟨(C8_thm.2 5 100 100 100 101 (by decide) (by decide) (by decide) (by decide)),
   ((C8_thm.1 (⟨3, 60, []⟩ : UserRateLimiter ℤ) 5).1 (by decide))⟩

end C8Section

section BucketDefs

variable {R : Type} [LinearOrderedCommRing R]

/-- State of `RateLimiter` (performance_optimizer.py): the token bucket with
`max_tokens`, `refill_rate`, the current `tokens` and `last_refill`. -/
structure RateLimiter (R : Type) where
  max_tokens : R
  refill_rate : R
  tokens : R
  last_refill : R
deriving DecidableEq

/-- `RateLimiter(max_tokens, refill_rate)` constructed at time `now`: the
bucket starts full. -/
def RateLimiter.init (max_tokens refill_rate now : R) : RateLimiter R :=
  ⟨max_tokens, refill_rate, max_tokens, now⟩

/-- `RateLimiter.acquire(tokens)` at time `now`: lazily refill with
`tokens = min(max_tokens, tokens + elapsed * refill_rate)` and advance
`last_refill`, then deduct the cost iff the refilled balance covers it. -/
def RateLimiter.acquire (s : RateLimiter R) (now : R) (cost : R) :
    Bool × RateLimiter R :=
  let refilled := min s.max_tokens (s.tokens + (now - s.last_refill) * s.refill_rate)
  if cost ≤ refilled then
    (true, { s with tokens := refilled - cost, last_refill := now })
  else
    (false, { s with tokens := refilled, last_refill := now })

/-- A sequence of `acquire` calls, each a pair of call time and cost. -/
def RateLimiter.runAcquires (s : RateLimiter R) : List (R × R) → RateLimiter R
  | [] => s
  | c :: cs => ((s.acquire c.1 c.2).2).runAcquires cs

theorem RateLimiter.acquire_pos {s : RateLimiter R} {now cost : R}
    (h : cost ≤ min s.max_tokens (s.tokens + (now - s.last_refill) * s.refill_rate)) :
    s.acquire now cost =
      (true, { s with tokens := min s.max_tokens (s.tokens + (now - s.last_refill) * s.refill_rate) - cost, last_refill := now }) := by
  simp [RateLimiter.acquire, h]

theorem RateLimiter.acquire_neg {s : RateLimiter R} {now cost : R}
    (h : ¬ cost ≤ min s.max_tokens (s.tokens + (now - s.last_refill) * s.refill_rate)) :
    s.acquire now cost =
      (false, { s with tokens := min s.max_tokens (s.tokens + (now - s.last_refill) * s.refill_rate), last_refill := now }) := by
  simp [RateLimiter.acquire, h]

/-- Conservation induction for the token bucket: nonnegative costs and
non-decreasing call times keep `0 ≤ tokens ≤ max_tokens`. -/
theorem runAcquires_bounds :
    ∀ (calls : List (R × R)) (s : RateLimiter R),
    0 ≤ s.max_tokens → 0 ≤ s.refill_rate →
    0 ≤ s.tokens → s.tokens ≤ s.max_tokens →
    List.Pairwise (· ≤ ·) (s.last_refill :: calls.map Prod.fst) →
    (∀ c ∈ calls, 0 ≤ c.2) →
    0 ≤ (s.runAcquires calls).tokens ∧
      (s.runAcquires calls).tokens ≤ s.max_tokens := by
  intro calls
  induction calls with
  | nil =>
    intro s hmax hrate h0 h1 hpair hcost
    exact ⟨h0, h1⟩
  | cons c cs ih =>
    intro s hmax hrate h0 h1 hpair hcost
    have htime : s.last_refill ≤ c.1 :=
      List.rel_of_pairwise_cons hpair (by simp)
    have hcost0 : 0 ≤ c.2 := hcost c (by simp)
    have hrefill0 : 0 ≤ min s.max_tokens (s.tokens + (c.1 - s.last_refill) * s.refill_rate) := by
      apply le_min hmax
      have : 0 ≤ (c.1 - s.last_refill) * s.refill_rate :=
        mul_nonneg (by linarith) hrate
      linarith
    have hrefill1 : min s.max_tokens (s.tokens + (c.1 - s.last_refill) * s.refill_rate) ≤ s.max_tokens :=
      min_le_left _ _
    by_cases h : c.2 ≤ min s.max_tokens (s.tokens + (c.1 - s.last_refill) * s.refill_rate)
    · have hstep : s.runAcquires (c :: cs) =
          ({ s with tokens := min s.max_tokens (s.tokens + (c.1 - s.last_refill) * s.refill_rate) - c.2, last_refill := c.1 } : RateLimiter R).runAcquires cs := by
        show ((s.acquire c.1 c.2).2).runAcquires cs = _
        rw [RateLimiter.acquire_pos h]
      rw [hstep]
      exact ih _ hmax hrate (by dsimp only; linarith) (by dsimp only; linarith)
        (by simpa using hpair.of_cons) (fun d hd => hcost d (by simp [hd]))
    · have hstep : s.runAcquires (c :: cs) =
          ({ s with tokens := min s.max_tokens (s.tokens + (c.1 - s.last_refill) * s.refill_rate), last_refill := c.1 } : RateLimiter R).runAcquires cs := by
        show ((s.acquire c.1 c.2).2).runAcquires cs = _
        rw [RateLimiter.acquire_neg h]
      rw [hstep]
      exact ih _ hmax hrate (by dsimp only; linarith) (by dsimp only; linarith)
        (by simpa using hpair.of_cons) (fun d hd => hcost d (by simp [hd]))

/-- Claim C6. Starting from a full bucket, after any sequence of `acquire`
calls with nonnegative costs at non-decreasing times, `tokens` never exceeds
`max_tokens` (the refill is capped by the `min` with `max_tokens`) and never
becomes negative; a single `acquire` succeeds iff the refilled balance covers
the cost, and deducts exactly the cost in that case. -/
theorem C6_thm (maxT rate t0 : R) (calls : List (R × R))
    (hmax : 0 ≤ maxT) (hrate : 0 ≤ rate)
    (hpair : List.Pairwise (· ≤ ·) (t0 :: calls.map Prod.fst))
    (hcost : ∀ c ∈ calls, 0 ≤ c.2) :
    (0 ≤ ((RateLimiter.init maxT rate t0).runAcquires calls).tokens ∧
      ((RateLimiter.init maxT rate t0).runAcquires calls).tokens ≤ maxT) ∧
    (∀ (s : RateLimiter R) (now cost : R),
      ((s.acquire now cost).1 = true ↔
        cost ≤ min s.max_tokens (s.tokens + (now - s.last_refill) * s.refill_rate)) ∧
      ((s.acquire now cost).1 = true →
        (s.acquire now cost).2.tokens =
          min s.max_tokens (s.tokens + (now - s.last_refill) * s.refill_rate) - cost)) := by
  constructor
  · exact runAcquires_bounds calls (RateLimiter.init maxT rate t0)
      hmax hrate hmax le_rfl hpair hcost
  · intro s now cost
    by_cases h : cost ≤ min s.max_tokens (s.tokens + (now - s.last_refill) * s.refill_rate)
    · rw [RateLimiter.acquire_pos h]
      exact ⟨by simpa using h, fun _ => rfl⟩
    · rw [RateLimiter.acquire_neg h]
      exact ⟨by simpa using h, fun hc => absurd hc (by simp)⟩

/-- Claim C6, witness: the global `RateLimiter(max_tokens=100,
refill_rate=10.0)` instance over integer time, with two acquires of costs 1
and 5 at times 0 and 1. -/
theorem C6_witness :
    0 ≤ ((RateLimiter.init (100 : ℤ) 10 0).runAcquires [(0, 1), (1, 5)]).tokens ∧
    ((RateLimiter.init (100 : ℤ) 10 0).runAcquires [(0, 1), (1, 5)]).tokens ≤ 100 :=
  (C6_thm 100 10 0 [(0, 1), (1, 5)] (by decide) (by decide) (by decide)
    (by decide)).1

end BucketDefs

section TokenDefs

variable {R : Type} [LinearOrderedCommRing R]

/-- One document of the `tokens` collection (database.py `save_token`):
`token`, `user_id`, `expiry`, `created_at`, `used_count`, `last_used`.
Token strings (uuid4) are modelled by natural numbers. -/
structure TokenDoc (R : Type) where
  token : ℕ
  user_id : ℤ
  expiry : R
  created_at : R
  used_count : ℕ
  last_used : Option R
deriving DecidableEq

/-- Mongo `find_one_and_update` with `return_document=True`: update the
first document matching `p` with `u`, returning the updated document. -/
def findOneAndUpdate {α : Type} (p : α → Bool) (u : α → α) :
    List α → Option α × List α
  | [] => (none, [])
  | d :: ds =>
    if p d then (some (u d), u d :: ds)
    else
      let r := findOneAndUpdate p u ds
      (r.1, d :: r.2)

/-- `DatabaseManager.save_token(token, user_id, expiry)` at time `now`:
insert a fresh document with `used_count = 0`; a duplicate token raises
`DuplicateKeyError`, caught and reported as `False` (the collection has a
unique index on `token`). -/
def DatabaseManager.save_token (col : List (TokenDoc R)) (tok : ℕ)
    (uid : ℤ) (expiry : R) (now : R) : Bool × List (TokenDoc R) :=
  if col.any (fun d => d.token = tok) then (false, col)
  else (true, col ++ [⟨tok, uid, expiry, now, 0, none⟩])

/-- `DatabaseManager.verify_token(token)` at time `now`:
`find_one_and_update` on the filter `token = tok` and `expiry > now`,
incrementing `used_count` and setting `last_used`, returning the `user_id` of
the matched document. -/
def DatabaseManager.verify_token (col : List (TokenDoc R)) (tok : ℕ)
    (now : R) : Option ℤ × List (TokenDoc R) :=
  let r := findOneAndUpdate
    (fun d => decide (d.token = tok) && decide (now < d.expiry))
    (fun d => { d with used_count := d.used_count + 1, last_used := some now })
    col
  (r.1.map (fun d => d.user_id), r.2)

/-- `DatabaseManager.check_user_token(user_id)` at time `now`: is there a
document owned by the user or shared (`user_id = 0`) with `expiry > now`. -/
def DatabaseManager.check_user_token (col : List (TokenDoc R)) (uid : ℤ)
    (now : R) : Bool :=
  col.any (fun d => (decide (d.user_id = uid) || decide (d.user_id = 0)) &&
    decide (now < d.expiry))

/-- `DatabaseManager.get_valid_token()` at time `now`: `find_one` on
`user_id = 0` and `expiry > now`, sorted by `expiry` descending, i.e. a
valid shared document of maximal expiry. -/
def DatabaseManager.get_valid_token (col : List (TokenDoc R)) (now : R) :
    Option (TokenDoc R) :=
  (col.filter (fun d => decide (d.user_id = 0) && decide (now < d.expiry))).foldl
    (fun acc d =>
      match acc with
      | none => some d
      | some b => if b.expiry < d.expiry then some d else some b)
    none

/-- The `used_count` of the first document carrying a given token. -/
def tokenUsedCount (col : List (TokenDoc R)) (tok : ℕ) : Option ℕ :=
  (col.find? (fun d => d.token = tok)).map (fun d => d.used_count)

theorem findOneAndUpdate_none {α : Type} (p : α → Bool) (u : α → α) :
    ∀ (l : List α), (∀ x ∈ l, p x = false) →
    findOneAndUpdate p u l = (none, l) := by
  intro l
  induction l with
  | nil => intro _; rfl
  | cons d ds ih =>
    intro h
    have hd : p d = false := h d (by simp)
    simp only [findOneAndUpdate, hd, Bool.false_eq_true, if_false]
    rw [ih (fun x hx => h x (by simp [hx]))]

theorem findOneAndUpdate_append_skip {α : Type} (p : α → Bool) (u : α → α) :
    ∀ (l1 l2 : List α), (∀ x ∈ l1, p x = false) →
    findOneAndUpdate p u (l1 ++ l2) =
      ((findOneAndUpdate p u l2).1, l1 ++ (findOneAndUpdate p u l2).2) := by
  intro l1
  induction l1 with
  | nil => intro l2 _; simp
  | cons d ds ih =>
    intro l2 h
    have hd : p d = false := h d (by simp)
    simp only [List.cons_append, findOneAndUpdate, hd, Bool.false_eq_true, if_false]
    simp [ih l2 (fun x hx => h x (by simp [hx]))]

/-- Every successful `verify_token` increments the `used_count` of the
document of the token by exactly one (multi-use tokens), provided token values
are unique in the collection. -/
theorem verify_token_increments_used_count (col : List (TokenDoc R))
    (tok : ℕ) (now : R)
    (hnd : (List.map (fun d => d.token) col).Nodup)
    (hsome : (DatabaseManager.verify_token col tok now).1.isSome = true) :
    ∃ n, tokenUsedCount col tok = some n ∧
      tokenUsedCount (DatabaseManager.verify_token col tok now).2 tok = some (n + 1) := by
  induction col with
  | nil => simp [DatabaseManager.verify_token, findOneAndUpdate] at hsome
  | cons d ds ih =>
    by_cases hp : (decide (d.token = tok) && decide (now < d.expiry)) = true
    · have htok : d.token = tok := by
        have := Bool.and_elim_left hp
        simpa using this
      have hexp : now < d.expiry := of_decide_eq_true (Bool.and_elim_right hp)
      refine ⟨d.used_count, ?_, ?_⟩
      · simp [tokenUsedCount, List.find?, htok]
      · simp [DatabaseManager.verify_token, findOneAndUpdate, hp, htok, hexp,
          tokenUsedCount, List.find?]
    · by_cases htok : d.token = tok
      · -- the head carries the token but is expired: no other document can
        -- match, so verification cannot succeed
        exfalso
        have hds : ∀ x ∈ ds, (decide (x.token = tok) && decide (now < x.expiry)) = false := by
          intro x hx
          have hne : x.token ≠ tok := by
            intro he
            have : d.token ∈ List.map (fun d => d.token) ds :=
              List.mem_map.mpr ⟨x, hx, by rw [he, htok]⟩
            exact (List.nodup_cons.mp hnd).1 this
          simp [hne]
        have := findOneAndUpdate_none
          (fun d => decide (d.token = tok) && decide (now < d.expiry))
          (fun d => { d with used_count := d.used_count + 1, last_used := some now }) ds hds
        simp [DatabaseManager.verify_token, findOneAndUpdate, hp, this] at hsome
      · -- the head does not carry the token: reduce to the tail
        have hsome2 : (DatabaseManager.verify_token ds tok now).1.isSome = true := by
          simpa [DatabaseManager.verify_token, findOneAndUpdate, hp] using hsome
        obtain ⟨n, hn1, hn2⟩ := ih (List.nodup_cons.mp hnd).2 hsome2
        refine ⟨n, ?_, ?_⟩
        · simpa [tokenUsedCount, List.find?, htok] using hn1
        · simpa [DatabaseManager.verify_token, findOneAndUpdate, hp,
            tokenUsedCount, List.find?, htok] using hn2

end TokenDefs

section C3Section

variable {R : Type} [LinearOrderedCommRing R]

theorem find?_append_of_none {α : Type} (p : α → Bool) :
    ∀ (l1 l2 : List α), (∀ x ∈ l1, p x = false) →
    List.find? p (l1 ++ l2) = List.find? p l2 := by
  intro l1
  induction l1 with
  | nil => intro l2 _; rfl
  | cons d ds ih =>
    intro l2 h
    have hd : p d = false := h d (by simp)
    simp only [List.cons_append, List.find?, hd]
    exact ih l2 (fun x hx => h x (by simp [hx]))

/-- Claim C3. A token saved with `expiry = t0 + D` (at the store level:
`DatabaseManager.save_token` followed by `DatabaseManager.verify_token`)
verifies successfully, returning its owner, for every check at `t0 + t` with
`t < D`, and returns invalid (`None`) for every `t ≥ D`; `used_count` is
incremented on every successful verification, including repeated
verifications of the same token. -/
theorem C3_thm (col : List (TokenDoc R)) (tok : ℕ) (uid : ℤ) (t0 D t : R)
    (hfresh : ∀ d ∈ col, d.token ≠ tok) :
    (DatabaseManager.save_token col tok uid (t0 + D) t0).1 = true ∧
    (t < D →
      (DatabaseManager.verify_token
        (DatabaseManager.save_token col tok uid (t0 + D) t0).2 tok (t0 + t)).1 = some uid ∧
      tokenUsedCount (DatabaseManager.verify_token
        (DatabaseManager.save_token col tok uid (t0 + D) t0).2 tok (t0 + t)).2 tok = some 1) ∧
    (D ≤ t →
      (DatabaseManager.verify_token
        (DatabaseManager.save_token col tok uid (t0 + D) t0).2 tok (t0 + t)).1 = none) ∧
    (∀ (col2 : List (TokenDoc R)) (now : R),
      (List.map (fun d => d.token) col2).Nodup →
      (DatabaseManager.verify_token col2 tok now).1.isSome = true →
      ∃ n, tokenUsedCount col2 tok = some n ∧
        tokenUsedCount (DatabaseManager.verify_token col2 tok now).2 tok = some (n + 1)) := by
  have hany : col.any (fun d => decide (d.token = tok)) = false := by
    rw [List.any_eq_false]
    intro d hd
    simpa using hfresh d hd
  have hsave : DatabaseManager.save_token col tok uid (t0 + D) t0 =
      (true, col ++ [⟨tok, uid, t0 + D, t0, 0, none⟩]) := by
    simp only [DatabaseManager.save_token]
    rw [if_neg]
    simp [hany]
  have hskip : ∀ x ∈ col,
      (decide (x.token = tok) && decide (t0 + t < x.expiry)) = false := by
    intro x hx
    simp [hfresh x hx]
  refine ⟨by rw [hsave], ?_, ?_, ?_⟩
  · intro ht
    have hexp : t0 + t < t0 + D := by linarith
    constructor
    · rw [hsave]
      simp only [DatabaseManager.verify_token]
      rw [findOneAndUpdate_append_skip _ _ col _ hskip]
      simp [findOneAndUpdate, hexp]
    · rw [hsave]
      simp only [DatabaseManager.verify_token]
      rw [findOneAndUpdate_append_skip _ _ col _ hskip]
      simp only [findOneAndUpdate]
      rw [tokenUsedCount, find?_append_of_none _ col _ (by intro x hx; simpa using hfresh x hx)]
      simp [hexp]
  · intro ht
    have hexp : ¬ t0 + t < t0 + D := by linarith
    rw [hsave]
    simp only [DatabaseManager.verify_token]
    rw [findOneAndUpdate_append_skip _ _ col _ hskip]
    simp [findOneAndUpdate, hexp]
  · intro col2 now hnd hsome
    exact verify_token_increments_used_count col2 tok now hnd hsome

/-- Claim C3, witness: an empty store, a shared token saved at time 0 with
`D = 86400` (24 hours in seconds); verification at `t = 100` succeeds with
`used_count` going to 1, and verification at `t = D` fails. -/
theorem C3_witness :
    (DatabaseManager.verify_token
      (DatabaseManager.save_token ([] : List (TokenDoc ℤ)) 9 4 (0 + 86400) 0).2
      9 (0 + 100)).1 = some 4 ∧
    tokenUsedCount (DatabaseManager.verify_token
      (DatabaseManager.save_token ([] : List (TokenDoc ℤ)) 9 4 (0 + 86400) 0).2
      9 (0 + 100)).2 9 = some 1 ∧
    (DatabaseManager.verify_token
      (DatabaseManager.save_token ([] : List (TokenDoc ℤ)) 9 4 (0 + 86400) 0).2
      9 (0 + 86400)).1 = none :=
  ⟨((C3_thm [] 9 4 0 86400 100 (by decide)).2.1 (by decide)).1,
   ((C3_thm [] 9 4 0 86400 100 (by decide)).2.1 (by decide)).2,
   ((C3_thm [] 9 4 0 86400 86400 (by decide)).2.2.1 (by decide))⟩

end C3Section

section C4Section

variable {R : Type} [LinearOrderedCommRing R]

/-- bot.py `generate_token(user_id)` at time `now`, with the fresh uuid4
modelled as `new_tok` and validity span `D` (`TOKEN_DURATION` converted to
the time unit): saves the token and returns it, or `None, None` when the
store reports failure. The telegram notifications and the pinned message
carry no state modelled here; the memoization key is deleted by the caller
before this runs. -/
def generate_token (col : List (TokenDoc R)) (new_tok : ℕ) (uid : ℤ)
    (now D : R) : Option ℕ × List (TokenDoc R) :=
  let r := DatabaseManager.save_token col new_tok uid (now + D) now
  if r.1 then (some new_tok, r.2) else (none, r.2)

/-- bot.py `refresh_token` at time `now`: look up the current valid shared
token; if one exists whose remaining validity strictly exceeds the safety
margin (`expiry - current_time > timedelta(hours=1)`), do nothing; otherwise
generate a new shared token. Returns the new collection and whether a token
was issued. -/
def refresh_token (col : List (TokenDoc R)) (now : R) (new_tok : ℕ)
    (D margin : R) : List (TokenDoc R) × Bool :=
  match DatabaseManager.get_valid_token col now with
  | some info =>
    if margin < info.expiry - now then (col, false)
    else
      let r := generate_token col new_tok 0 now D
      (r.2, r.1.isSome)
  | none =>
    let r := generate_token col new_tok 0 now D
    (r.2, r.1.isSome)

/-- Claim C4, counterexample. The claim asserts that for a shared token with
duration 24h, a refresh at `t = 23h` does nothing. In the code the guard is
strict (`expiry - current_time > timedelta(hours=1)`): at `t = 23h` the
remaining validity is exactly one hour, the guard fails, and a new token is
issued. Concretely (seconds as the unit): a shared token with
`expiry = 86400` and a refresh at `now = 82800 = 23h` issues a token. -/
theorem C4_counterexample :
    (refresh_token [(⟨1, 0, 86400, 0, 0, none⟩ : TokenDoc ℤ)] 82800 2 86400 3600).2 = true := by
  decide

/-- Claim C4, amended. `refresh_token` issues no new token when the current
remaining validity of the current shared token strictly exceeds the one-hour safety
margin; it issues exactly one new shared token otherwise, i.e. when the
remaining validity is at most the margin (including exactly the margin, as
at `t = 23h` for a 24h token) or when no valid shared token exists. In the
concrete scenario, the refresh does nothing strictly before `t = 23h` and
issues one new token at `t = 23h` and later, e.g. at `t = 23h1m`. -/
theorem C4_thm (col : List (TokenDoc R)) (now : R) (new_tok : ℕ)
    (D margin : R) :
    (∀ info, DatabaseManager.get_valid_token col now = some info →
      margin < info.expiry - now →
      refresh_token col now new_tok D margin = (col, false)) ∧
    ((∀ d ∈ col, d.token ≠ new_tok) →
      (∀ info, DatabaseManager.get_valid_token col now = some info →
        info.expiry - now ≤ margin →
        refresh_token col now new_tok D margin =
          (col ++ [⟨new_tok, 0, now + D, now, 0, none⟩], true)) ∧
      (DatabaseManager.get_valid_token col now = none →
        refresh_token col now new_tok D margin =
          (col ++ [⟨new_tok, 0, now + D, now, 0, none⟩], true))) := by
  constructor
  · intro info hinfo hmargin
    rw [refresh_token, hinfo]
    simp [hmargin]
  · intro hfresh
    have hany : (col.any fun d => decide (d.token = new_tok)) = false := by
      rw [List.any_eq_false]
      intro d hd
      simpa using hfresh d hd
    have hsave : DatabaseManager.save_token col new_tok 0 (now + D) now =
        (true, col ++ [⟨new_tok, 0, now + D, now, 0, none⟩]) := by
      simp only [DatabaseManager.save_token]
      rw [if_neg]
      simp [hany]
    have hgen : generate_token col new_tok 0 now D =
        (some new_tok, col ++ [⟨new_tok, 0, now + D, now, 0, none⟩]) := by
      rw [generate_token, hsave]
      rfl
    constructor
    · intro info hinfo hmargin
      rw [refresh_token, hinfo]
      dsimp only
      rw [if_neg (not_lt.mpr hmargin), hgen]
      rfl
    · intro hnone
      rw [refresh_token, hnone]
      dsimp only
      rw [hgen]
      rfl

/-- Claim C4, witness: a 24h shared token over integer seconds; at
`now = 82799` (just before 23h, remaining 3601s) the refresh leaves the
store unchanged and issues nothing, while at `now = 82860` (23h1m,
remaining 3540s) it issues exactly one new shared token. -/
theorem C4_witness :
    refresh_token [(⟨1, 0, 86400, 0, 0, none⟩ : TokenDoc ℤ)] 82799 2 86400 3600 =
      ([(⟨1, 0, 86400, 0, 0, none⟩ : TokenDoc ℤ)], false) ∧
    refresh_token [(⟨1, 0, 86400, 0, 0, none⟩ : TokenDoc ℤ)] 82860 2 86400 3600 =
      ([(⟨1, 0, 86400, 0, 0, none⟩ : TokenDoc ℤ),
        ⟨2, 0, 82860 + 86400, 82860, 0, none⟩], true) :=
  ⟨(C4_thm [(⟨1, 0, 86400, 0, 0, none⟩ : TokenDoc ℤ)] 82799 2 86400 3600).1
      ⟨1, 0, 86400, 0, 0, none⟩ (by decide) (by decide),
   ((C4_thm [(⟨1, 0, 86400, 0, 0, none⟩ : TokenDoc ℤ)] 82860 2 86400 3600).2
      (by decide)).1 ⟨1, 0, 86400, 0, 0, none⟩ (by decide) (by decide)⟩

end C4Section

section BatchDefs

/-- Outcome of `db.get_file(fid)` inside the chunk gather of bot.py
`send_file` (`asyncio.gather(..., return_exceptions=True)`): the gathered
value is either a raised exception, a missing document (`None`), or a
document carrying an optional stored `message_id`. -/
inductive FileLookup : Type
  | exn : FileLookup
  | missing : FileLookup
  | found : Option ℕ → FileLookup

/-- One item of the batch loop of bot.py `send_file`: a lookup exception, a
missing document or a document without `message_id` appends the identifier
to `missing_files`; otherwise `copy_message` either returns the new chat
message id (appended to `sent_messages`) or fails, appending the identifier
to `missing_files`. The batch is never aborted. -/
def process_batch_item (lookup : ℕ → FileLookup) (send : ℕ → Option ℕ)
    (acc : List ℕ × List ℕ) (fid : ℕ) : List ℕ × List ℕ :=
  match lookup fid with
  | FileLookup.exn => (acc.1, acc.2 ++ [fid])
  | FileLookup.missing => (acc.1, acc.2 ++ [fid])
  | FileLookup.found none => (acc.1, acc.2 ++ [fid])
  | FileLookup.found (some mid) =>
    match send mid with
    | some smid => (acc.1 ++ [smid], acc.2)
    | none => (acc.1, acc.2 ++ [fid])

/-- Fuel-driven chunking: with fuel at least the list length, the successive
slices `l[i:i+5]`. Structural recursion on the fuel, so that concrete
instances evaluate by kernel reduction. -/
def chunksGo {α : Type} : ℕ → List α → List (List α)
  | _, [] => []
  | 0, _ :: _ => []
  | n + 1, a :: rest => ((a :: rest).take 5) :: chunksGo n ((a :: rest).drop 5)

/-- The `for i in range(0, len(batch_files), batch_size)` slicing with
`batch_size = 5`: the successive chunks `batch_files[i:i+5]`. -/
def chunks5 {α : Type} (l : List α) : List (List α) :=
  chunksGo l.length l

/-- The batch branch of bot.py `send_file`: process the chunks sequentially;
within a chunk the lookups are gathered concurrently, but results are
consumed by `zip(batch_chunk, file_results)` in chunk-encounter order, so
each chunk is a left fold of `process_batch_item`. Returns `sent_messages`
and `missing_files`. -/
def send_file_batch (lookup : ℕ → FileLookup) (send : ℕ → Option ℕ)
    (batch_files : List ℕ) : List ℕ × List ℕ :=
  (chunks5 batch_files).foldl
    (fun acc chunk => chunk.foldl (process_batch_item lookup send) acc)
    ([], [])

/-- Per-item delivery outcome: the lookup finds a document with a
`message_id` and the delivery capability succeeds, producing the new
message id; anything else is a failure. -/
def item_delivery (lookup : ℕ → FileLookup) (send : ℕ → Option ℕ)
    (fid : ℕ) : Option ℕ :=
  match lookup fid with
  | FileLookup.found (some mid) => send mid
  | _ => none

theorem chunksGo_foldl {β : Type} (f : β → ℕ → β) :
    ∀ (n : ℕ) (l : List ℕ), l.length ≤ n → ∀ acc,
    (chunksGo n l).foldl (fun a c => c.foldl f a) acc = l.foldl f acc := by
  intro n
  induction n with
  | zero =>
    intro l hl acc
    have : l = [] := List.eq_nil_of_length_eq_zero (Nat.le_zero.mp hl)
    subst this
    rfl
  | succ n ih =>
    intro l hl acc
    cases l with
    | nil => rfl
    | cons a rest =>
      rw [chunksGo]
      rw [List.foldl_cons]
      rw [ih ((a :: rest).drop 5)
        (by simp only [List.length_drop, List.length_cons] at hl ⊢; omega) _]
      rw [← List.foldl_append, List.take_append_drop]

theorem chunks5_foldl {β : Type} (f : β → ℕ → β) (l : List ℕ) (acc : β) :
    (chunks5 l).foldl (fun a c => c.foldl f a) acc = l.foldl f acc :=
  chunksGo_foldl f l.length l le_rfl acc

theorem foldl_process_batch_item (lookup : ℕ → FileLookup)
    (send : ℕ → Option ℕ) :
    ∀ (files : List ℕ) (sent missing : List ℕ),
    files.foldl (process_batch_item lookup send) (sent, missing) =
      (sent ++ files.filterMap (item_delivery lookup send),
       missing ++ files.filter (fun fid => (item_delivery lookup send fid).isNone)) := by
  intro files
  induction files with
  | nil => intro sent missing; simp
  | cons fid rest ih =>
    intro sent missing
    rw [List.foldl_cons]
    cases hl : lookup fid with
    | exn =>
      rw [show process_batch_item lookup send (sent, missing) fid =
        (sent, missing ++ [fid]) by simp [process_batch_item, hl]]
      rw [ih]
      simp [List.filterMap_cons, List.filter_cons, item_delivery, hl]
    | missing =>
      rw [show process_batch_item lookup send (sent, missing) fid =
        (sent, missing ++ [fid]) by simp [process_batch_item, hl]]
      rw [ih]
      simp [List.filterMap_cons, List.filter_cons, item_delivery, hl]
    | found omid =>
      cases omid with
      | none =>
        rw [show process_batch_item lookup send (sent, missing) fid =
          (sent, missing ++ [fid]) by simp [process_batch_item, hl]]
        rw [ih]
        simp [List.filterMap_cons, List.filter_cons, item_delivery, hl]
      | some mid =>
        cases hs : send mid with
        | none =>
          rw [show process_batch_item lookup send (sent, missing) fid =
            (sent, missing ++ [fid]) by simp [process_batch_item, hl, hs]]
          rw [ih]
          simp [List.filterMap_cons, List.filter_cons, item_delivery, hl, hs]
        | some smid =>
          rw [show process_batch_item lookup send (sent, missing) fid =
            (sent ++ [smid], missing) by simp [process_batch_item, hl, hs]]
          rw [ih]
          simp [List.filterMap_cons, List.filter_cons, item_delivery, hl, hs]

/-- The concrete 7-item scenario: items 3 and 6 fail to resolve (a missing
document and a gathered exception respectively), all others resolve to a
document whose `message_id` is the item identifier itself. -/
def sampleLookup : ℕ → FileLookup := fun fid =>
  if fid = 3 then FileLookup.missing
  else if fid = 6 then FileLookup.exn
  else FileLookup.found (some fid)

/-- The concrete delivery capability: always succeeds, producing a fresh
message id. -/
def sampleSend : ℕ → Option ℕ := fun mid => some (mid + 1000)

/-- Claim C5. Delivering a batch completes without aborting: every item
whose lookup raises, resolves to no document or no `message_id`, or whose
delivery fails, is appended to `missing_files` in chunk-encounter order
(which is the original order), while the remaining items are delivered; for
the batch `[1..7]` where items 3 and 6 fail to resolve, `sent_messages` has
length 5 and `missing_files = [3, 6]`. -/
theorem C5_thm :
    (∀ (lookup : ℕ → FileLookup) (send : ℕ → Option ℕ) (batch_files : List ℕ),
      send_file_batch lookup send batch_files =
        (batch_files.filterMap (item_delivery lookup send),
         batch_files.filter (fun fid => (item_delivery lookup send fid).isNone))) ∧
    (send_file_batch sampleLookup sampleSend [1, 2, 3, 4, 5, 6, 7]).1.length = 5 ∧
    (send_file_batch sampleLookup sampleSend [1, 2, 3, 4, 5, 6, 7]).2 = [3, 6] := by
  refine ⟨?_, by decide, by decide⟩
  intro lookup send batch_files
  rw [send_file_batch, chunks5_foldl (process_batch_item lookup send) batch_files,
    foldl_process_batch_item]
  simp

end BatchDefs

section C7Helpers

variable {K V : Type} [DecidableEq K]

theorem alist_pop_many_map_fst (l : List (K × V)) (ks : List K) :
    (alist_pop_many l ks).map Prod.fst =
      (l.map Prod.fst).filter (fun k => decide (k ∉ ks)) := by
  induction l with
  | nil => rfl
  | cons kv rest ih =>
    by_cases h : kv.1 ∈ ks
    · simpa [alist_pop_many, List.filter_cons, h] using ih
    · simpa [alist_pop_many, List.filter_cons, h] using ih

theorem mem_of_alist_get {l : List (K × V)} {k : K} {v : V} :
    alist_get l k = some v → (k, v) ∈ l := by
  induction l with
  | nil => intro h; simp [alist_get] at h
  | cons kv rest ih =>
    intro h
    obtain ⟨k1, v1⟩ := kv
    by_cases h1 : k1 = k
    · subst h1
      simp [alist_get] at h
      simp [h]
    · simp [alist_get, h1] at h
      exact List.mem_cons_of_mem _ (ih h)

theorem eq_of_mem_keys_nodup {l : List (K × V)} {a b : K × V}
    (hnd : (l.map Prod.fst).Nodup) (ha : a ∈ l) (hb : b ∈ l)
    (heq : a.1 = b.1) : a = b := by
  induction l with
  | nil => cases ha
  | cons c cs ih =>
    simp only [List.map_cons, List.nodup_cons] at hnd
    rcases List.mem_cons.mp ha with h1 | h1 <;>
      rcases List.mem_cons.mp hb with h2 | h2
    · rw [h1, h2]
    · exfalso
      apply hnd.1
      have hcb : c.1 = b.1 := by rw [← h1]; exact heq
      rw [hcb]
      exact List.mem_map_of_mem _ h2
    · exfalso
      apply hnd.1
      have hca : c.1 = a.1 := by rw [← h2]; exact heq.symm
      rw [hca]
      exact List.mem_map_of_mem _ h1
    · exact ih hnd.2 h1 h2

theorem countP_mem_eq_length {A : Type} [DecidableEq A] (keys ks : List A)
    (h1 : keys.Nodup) (h2 : ks.Nodup) (hsub : ∀ k ∈ ks, k ∈ keys) :
    keys.countP (fun k => decide (k ∈ ks)) = ks.length := by
  rw [List.countP_eq_length_filter]
  have hperm : List.Perm (keys.filter (fun k => decide (k ∈ ks))) ks := by
    rw [List.perm_ext_iff_of_nodup (h1.filter _) h2]
    intro a
    simp only [List.mem_filter, decide_eq_true_eq]
    exact ⟨fun h => h.2, fun h => ⟨hsub a h, h⟩⟩
  exact hperm.length_eq

theorem alist_pop_many_length_sub (l : List (K × V)) (ks : List K) :
    (alist_pop_many l ks).length =
      l.length - l.countP (fun kv => decide (kv.1 ∈ ks)) := by
  induction l with
  | nil => rfl
  | cons kv rest ih =>
    have hc := List.countP_le_length (fun kv => decide (kv.1 ∈ ks)) (l := rest)
    rw [alist_pop_many] at ih ⊢
    rw [List.filter_cons, List.countP_cons, List.length_cons]
    by_cases h : kv.1 ∈ ks
    · have hd1 : decide (kv.1 ∉ ks) = false := by simp [h]
      have hd2 : decide (kv.1 ∈ ks) = true := by simp [h]
      rw [hd1, hd2]
      simp only [Bool.false_eq_true, if_false, if_true]
      rw [ih]
      omega
    · have hd1 : decide (kv.1 ∉ ks) = true := by simp [h]
      have hd2 : decide (kv.1 ∈ ks) = false := by simp [h]
      rw [hd1, hd2]
      simp only [Bool.false_eq_true, if_false, if_true, List.length_cons]
      rw [ih]
      omega

theorem alist_pop_many_length (l : List (K × V)) (ks : List K)
    (hnd_l : (l.map Prod.fst).Nodup) (hnd_ks : ks.Nodup)
    (hsub : ∀ k ∈ ks, k ∈ l.map Prod.fst) :
    (alist_pop_many l ks).length = l.length - ks.length := by
  rw [alist_pop_many_length_sub]
  have h2 := countP_mem_eq_length (l.map Prod.fst) ks hnd_l hnd_ks hsub
  rw [List.countP_map] at h2
  have h3 : l.countP (fun kv => decide (kv.1 ∈ ks)) = ks.length := h2
  rw [h3]

end C7Helpers

section C7Section

variable {R : Type} [LinearOrderedCommRing R]
variable {K V : Type} [DecidableEq K]

/-- The keys collected by the expiry scan of one cycle of
`MemoryCache._cleanup_expired`: the entries with `now > expires_at`. -/
def MemoryCache.expired_keys (c : MemoryCache K V R) (now : R) : List K :=
  (c.cache.filter (fun kv => decide (kv.2.expires_at < now))).map Prod.fst

/-- The `_cache` dict after the expiry pops of one cycle. -/
def MemoryCache.surviving_cache (c : MemoryCache K V R) (now : R) :
    List (K × CacheEntry V R) :=
  alist_pop_many c.cache (c.expired_keys now)

/-- The `_access_times` dict after the expiry pops of one cycle. -/
def MemoryCache.surviving_access (c : MemoryCache K V R) (now : R) :
    List (K × R) :=
  alist_pop_many c.access_times (c.expired_keys now)

/-- `sorted(self._access_times.items(), key=lambda x: x[1])`: the surviving
access times sorted ascending by access time. -/
def MemoryCache.sorted_access (c : MemoryCache K V R) (now : R) :
    List (K × R) :=
  List.insertionSort (fun a b => a.2 ≤ b.2) (c.surviving_access now)

/-- `keys_to_remove`: when the cache is still over capacity after the expiry
pops, the first `size - max_size` keys of the access times sorted ascending
by access time (the natural subtraction makes this the empty list
otherwise). -/
def MemoryCache.evicted_keys (c : MemoryCache K V R) (now : R) : List K :=
  ((c.sorted_access now).take
    ((c.surviving_cache now).length - c.max_size)).map Prod.fst

/-- One cycle of the body of `MemoryCache._cleanup_expired`: pop all expired
entries from both dicts, then, if `len(self._cache) > self.max_size`, pop
the least-recently-accessed surplus entries from both dicts. -/
def MemoryCache.cleanup_cycle (c : MemoryCache K V R) (now : R) :
    MemoryCache K V R :=
  if c.max_size < (c.surviving_cache now).length then
    { c with cache := alist_pop_many (c.surviving_cache now) (c.evicted_keys now),
             access_times := alist_pop_many (c.surviving_access now) (c.evicted_keys now) }
  else
    { c with cache := c.surviving_cache now,
             access_times := c.surviving_access now }

/-- Key discipline of `MemoryCache`: `_cache` and `_access_times` hold
exactly the same keys in the same order, each at most once; the source
mutates the two dicts in lockstep. -/
def MemoryCache.wf (c : MemoryCache K V R) : Prop :=
  c.cache.map Prod.fst = c.access_times.map Prod.fst ∧
    (c.cache.map Prod.fst).Nodup

/-- Claim C7. After any single reclamation cycle, `size ≤ maxSize`; and when
the cycle is still over capacity after expiry removal, the keys evicted for
capacity number exactly `size - maxSize` and the last access time of each
evicted entry is at most that of every retained entry (they are the
least-recently-accessed ones). -/
theorem C7_thm (c : MemoryCache K V R) (now : R) (hwf : c.wf) :
    (c.cleanup_cycle now).cache.length ≤ c.max_size ∧
    (c.max_size < (c.surviving_cache now).length →
      (c.evicted_keys now).length =
        (c.surviving_cache now).length - c.max_size ∧
      (∀ k ∈ c.evicted_keys now,
        ∀ k2 ∈ (c.cleanup_cycle now).cache.map Prod.fst,
        ∀ tk tk2, alist_get (c.surviving_access now) k = some tk →
          alist_get (c.surviving_access now) k2 = some tk2 → tk ≤ tk2)) := by
  haveI hTot : IsTotal (K × R) (fun a b => a.2 ≤ b.2) :=
    ⟨fun a b => le_total a.2 b.2⟩
  haveI hTrans : IsTrans (K × R) (fun a b => a.2 ≤ b.2) :=
    ⟨fun a b c2 hab hbc => le_trans hab hbc⟩
  have hkeys : (c.surviving_cache now).map Prod.fst =
      (c.surviving_access now).map Prod.fst := by
    rw [MemoryCache.surviving_cache, MemoryCache.surviving_access,
      alist_pop_many_map_fst, alist_pop_many_map_fst, hwf.1]
  have hnodupC : ((c.surviving_cache now).map Prod.fst).Nodup := by
    rw [MemoryCache.surviving_cache, alist_pop_many_map_fst]
    exact hwf.2.filter _
  have hlen_acc : (c.surviving_access now).length =
      (c.surviving_cache now).length := by
    have h1 := congrArg List.length hkeys
    simpa using h1.symm
  have hperm : List.Perm (c.sorted_access now) (c.surviving_access now) :=
    List.perm_insertionSort _ _
  have hsorted_len : (c.sorted_access now).length =
      (c.surviving_cache now).length := by
    rw [hperm.length_eq, hlen_acc]
  have hnodupA : ((c.surviving_access now).map Prod.fst).Nodup := by
    rw [← hkeys]; exact hnodupC
  have hnodupS : ((c.sorted_access now).map Prod.fst).Nodup := by
    rw [(hperm.map Prod.fst).nodup_iff]
    exact hnodupA
  have hnodupEk : (c.evicted_keys now).Nodup := by
    rw [MemoryCache.evicted_keys]
    exact List.Pairwise.sublist ((List.take_sublist _ _).map _) hnodupS
  have hsubEkA : ∀ k ∈ c.evicted_keys now,
      k ∈ (c.surviving_access now).map Prod.fst := by
    intro k hk
    rw [MemoryCache.evicted_keys] at hk
    obtain ⟨p1, hp1m, hp1⟩ := List.mem_map.mp hk
    have hp1s : p1 ∈ c.sorted_access now := List.take_subset _ _ hp1m
    have hp1a : p1 ∈ c.surviving_access now := hperm.subset hp1s
    rw [← hp1]
    exact List.mem_map_of_mem _ hp1a
  have hsubEkC : ∀ k ∈ c.evicted_keys now,
      k ∈ (c.surviving_cache now).map Prod.fst := by
    intro k hk
    rw [hkeys]
    exact hsubEkA k hk
  have hek_len : c.max_size < (c.surviving_cache now).length →
      (c.evicted_keys now).length =
        (c.surviving_cache now).length - c.max_size := by
    intro hover
    rw [MemoryCache.evicted_keys, List.length_map, List.length_take,
      hsorted_len]
    omega
  constructor
  · by_cases hover : c.max_size < (c.surviving_cache now).length
    · rw [MemoryCache.cleanup_cycle, if_pos hover]
      have hfin := alist_pop_many_length (c.surviving_cache now)
        (c.evicted_keys now) hnodupC hnodupEk hsubEkC
      have hlen := hek_len hover
      dsimp only
      rw [hfin, hlen]
      omega
    · rw [MemoryCache.cleanup_cycle, if_neg hover]
      dsimp only
      omega
  · intro hover
    refine ⟨hek_len hover, ?_⟩
    intro k hk k2 hk2 tk tk2 hget hget2
    -- the binding of an evicted key lies in the take part of the sorted list
    obtain ⟨p1, hp1m, hp1⟩ := List.mem_map.mp
      (by rw [MemoryCache.evicted_keys] at hk; exact hk)
    have hp1s : p1 ∈ c.sorted_access now := List.take_subset _ _ hp1m
    have hmemk : (k, tk) ∈ c.surviving_access now := mem_of_alist_get hget
    have hmemk_s : (k, tk) ∈ c.sorted_access now := hperm.mem_iff.mpr hmemk
    have hp1_eq : p1 = (k, tk) :=
      eq_of_mem_keys_nodup hnodupS hp1s hmemk_s (by rw [hp1])
    rw [hp1_eq] at hp1m
    -- the binding of a retained key lies in the drop part of the sorted list
    have hk2props : k2 ∈ (c.surviving_cache now).map Prod.fst ∧
        k2 ∉ c.evicted_keys now := by
      rw [MemoryCache.cleanup_cycle, if_pos hover] at hk2
      dsimp only at hk2
      rw [alist_pop_many_map_fst] at hk2
      have := List.mem_filter.mp hk2
      exact ⟨this.1, by simpa using this.2⟩
    have hmemk2 : (k2, tk2) ∈ c.surviving_access now := mem_of_alist_get hget2
    have hmemk2_s : (k2, tk2) ∈ c.sorted_access now := hperm.mem_iff.mpr hmemk2
    have hsplit := List.take_append_drop
      ((c.surviving_cache now).length - c.max_size) (c.sorted_access now)
    have hk2drop : (k2, tk2) ∈ (c.sorted_access now).drop
        ((c.surviving_cache now).length - c.max_size) := by
      rcases List.mem_append.mp (by rw [hsplit]; exact hmemk2_s) with h | h
      · exfalso
        apply hk2props.2
        rw [MemoryCache.evicted_keys]
        exact List.mem_map_of_mem _ h
      · exact h
    have hsorted : List.Sorted (fun a b : K × R => a.2 ≤ b.2)
        (c.sorted_access now) :=
      List.sorted_insertionSort _ _
    have hpairwise := hsorted
    rw [← hsplit] at hpairwise
    have hrel := (List.pairwise_append.mp hpairwise).2.2
    exact hrel (k, tk) hp1m (k2, tk2) hk2drop

/-- A concrete cache for the C7 witness: `max_size = 1`, one entry already
expired at time 6 and two live entries with distinct access times. -/
def sampleCache2 : MemoryCache ℕ ℕ ℤ :=
  ⟨300, 1,
   [(1, ⟨10, 5⟩), (2, ⟨20, 100⟩), (3, ⟨30, 100⟩)],
   [(1, 2), (2, 50), (3, 40)]⟩

/-- Claim C7, witness: the cycle on `sampleCache2` at time 6 removes the
expired entry 1, is left with 2 entries over a capacity of 1, and evicts
key 3 (access time 40) rather than key 2 (access time 50). -/
theorem C7_witness :
    (sampleCache2.cleanup_cycle 6).cache.length ≤ sampleCache2.max_size ∧
    (sampleCache2.evicted_keys 6).length =
      (sampleCache2.surviving_cache 6).length - sampleCache2.max_size ∧
    (40 : ℤ) ≤ 50 :=
  ⟨(C7_thm sampleCache2 6 ⟨by decide, by decide⟩).1,
   ((C7_thm sampleCache2 6 ⟨by decide, by decide⟩).2 (by decide)).1,
   ((C7_thm sampleCache2 6 ⟨by decide, by decide⟩).2 (by decide)).2 3 (by decide) 2
     (by decide) 40 50 (by decide) (by decide)⟩

end C7Section

section C9Section

/-- database.py `DatabaseManager.verify_token`: the driver call
(`find_one_and_update`) either returns the optional owner or raises; the
`except` block logs and returns `None`. `attempt` is the driver outcome. -/
def DatabaseManager.verify_token_guarded (attempt : Except Unit (Option ℤ)) :
    Option ℤ :=
  match attempt with
  | Except.ok r => r
  | Except.error _ => none

/-- database.py `DatabaseManager.check_user_token`: a driver exception is
caught and reported as `False`. -/
def DatabaseManager.check_user_token_guarded (attempt : Except Unit Bool) :
    Bool :=
  match attempt with
  | Except.ok r => r
  | Except.error _ => false

/-- database.py `DatabaseManager.save_token`: `DuplicateKeyError` and every
other driver exception are caught and reported as `False`. -/
def DatabaseManager.save_token_guarded (attempt : Except Unit Bool) : Bool :=
  match attempt with
  | Except.ok r => r
  | Except.error _ => false

/-- bot.py `verify_token` (the body behind the memoization decorator): the
call into the database layer is wrapped in `try/except`, returning `None`
on any raised error. -/
def bot_verify_token (layer : Except Unit (Option ℤ)) : Option ℤ :=
  match layer with
  | Except.ok r => r
  | Except.error _ => none

/-- bot.py `check_user_token`: `try/except` returning `False` on any raised
error. -/
def bot_check_user_token (layer : Except Unit Bool) : Bool :=
  match layer with
  | Except.ok r => r
  | Except.error _ => false

/-- bot.py `generate_token` reduced to its store interaction: when
`db.save_token` reports failure the function returns the pair
`(None, None)`; otherwise it returns the token and its verification URL
(modelled by the token value). -/
def bot_generate_token (save_ok : Bool) (tok : ℕ) : Option ℕ × Option ℕ :=
  if save_ok then (some tok, some tok) else (none, none)

/-- Claim C9. A persistent-store failure during token issuance or
verification is reported to the caller as an invalid/failure value — `None`
from `verify_token`, `False` from `check_user_token`, `(None, None)` from
`generate_token` — at both the database layer and the bot layer; the
guarded wrappers are total functions of the driver outcome, so no exception
propagates. -/
theorem C9_thm (tok : ℕ) (e : Unit) :
    DatabaseManager.verify_token_guarded (Except.error e) = none ∧
    bot_verify_token (Except.error e) = none ∧
    bot_verify_token
      (Except.ok (DatabaseManager.verify_token_guarded (Except.error e))) = none ∧
    DatabaseManager.check_user_token_guarded (Except.error e) = false ∧
    bot_check_user_token (Except.error e) = false ∧
    bot_check_user_token
      (Except.ok (DatabaseManager.check_user_token_guarded (Except.error e))) = false ∧
    DatabaseManager.save_token_guarded (Except.error e) = false ∧
    bot_generate_token (DatabaseManager.save_token_guarded (Except.error e)) tok =
      (none, none) :=
  ⟨rfl, rfl, rfl, rfl, rfl, rfl, rfl, rfl⟩

end C9Section

section C10Section

variable {R : Type} [LinearOrderedCommRing R]
variable {K τ : Type} [DecidableEq K]

/-- The wrapper produced by the `cached` decorator
(performance_optimizer.py): call `cache.get(cache_key)`; a `None` result —
whether the key is absent, the entry expired, or the stored value itself is
`None` — is treated as a miss (`if result is not None`), re-executing the
wrapped function and storing its result with `cache.set`. Python values
that may be `None` are modelled as `Option τ`, so a stored `None` and the
absence sentinel collapse exactly as in the source. Returns the call
result, the new cache state and whether the wrapped function executed. -/
def cached_call (ttl : R) (f : Unit → Option τ) (key : K)
    (c : MemoryCache K (Option τ) R) (now : R) :
    Option τ × MemoryCache K (Option τ) R × Bool :=
  let g := c.get key now
  let py : Option τ := match g.1 with
    | some v => v
    | none => none
  match py with
  | some v => (some v, g.2, false)
  | none =>
    let r := f ()
    (r, (g.2).set key r (some ttl) now, true)

theorem cached_call_on_stored_none (ttl2 : R) (f : Unit → Option τ) (key : K)
    (c0 : MemoryCache K (Option τ) R) (ttl1 now1 now2 : R) :
    (cached_call ttl2 f key (c0.set key none (some ttl1) now1) now2).2.2 = true := by
  unfold cached_call MemoryCache.get MemoryCache.set
  simp only [Option.getD_some, alist_get_set_self]
  by_cases hexp : (now1 + ttl1 : R) < now2
  · simp [hexp]
  · simp [hexp]

/-- Claim C10. For every function wrapped by the `cached` decorator, a call
whose outcome is `None` always executed the wrapped function (a `None`
value is never served from the cache), and after a call that executed a
function returning `None`, every subsequent call with the same cache key
re-executes the function: negative results are effectively not memoized. -/
theorem C10_thm :
    (∀ (ttl : R) (f : Unit → Option τ) (key : K)
      (c : MemoryCache K (Option τ) R) (now : R),
      (cached_call ttl f key c now).1 = none →
      (cached_call ttl f key c now).2.2 = true) ∧
    (∀ (ttl1 ttl2 : R) (f : Unit → Option τ) (key : K)
      (c : MemoryCache K (Option τ) R) (now1 now2 : R),
      f () = none →
      (cached_call ttl1 f key c now1).2.2 = true →
      (cached_call ttl2 f key (cached_call ttl1 f key c now1).2.1 now2).2.2 = true) := by
  constructor
  · intro ttl f key c now hnone
    rcases hg : (c.get key now).1 with _ | v
    · simp [cached_call, hg]
    · cases v with
      | none => simp [cached_call, hg]
      | some x => simp [cached_call, hg] at hnone
  · intro ttl1 ttl2 f key c now1 now2 hf hexec
    have hstate : (cached_call ttl1 f key c now1).2.1 =
        ((c.get key now1).2).set key (f ()) (some ttl1) now1 := by
      rcases hg : (c.get key now1).1 with _ | v
      · simp [cached_call, hg]
      · cases v with
        | none => simp [cached_call, hg]
        | some x => exfalso; simp [cached_call, hg] at hexec
    rw [hstate, hf]
    exact cached_call_on_stored_none ttl2 f key _ ttl1 now1 now2

/-- The concrete always-`None` wrapped function for the C10 witness. -/
def sampleNoneF : Unit → Option ℕ := fun _ => none

/-- The concrete cache state for the C10 witness. -/
def sampleOptCache : MemoryCache ℕ (Option ℕ) ℤ := ⟨300, 10000, [], []⟩

/-- Claim C10, witness: with a wrapped function returning `None` on the
empty cache, the first call executes, and the repeat call five time units
later (well inside the ttl of 10) executes again rather than being served
from the cache. -/
theorem C10_witness :
    (cached_call (10 : ℤ) sampleNoneF 1 sampleOptCache 0).2.2 = true ∧
    (cached_call (10 : ℤ) sampleNoneF 1
      (cached_call (10 : ℤ) sampleNoneF 1 sampleOptCache 0).2.1 5).2.2 = true :=
  ⟨C10_thm.1 10 sampleNoneF 1 sampleOptCache 0 (by decide),
   C10_thm.2 10 10 sampleNoneF 1 sampleOptCache 0 5 (by decide) (by decide)⟩

end C10Section
